import Mathlib

/-!
Verification of the mining and chain-linkage core of the IPFSBlockchain
repository (miner.go, client.go) against its specification.

Go strings are modelled as `List Char` (`GoStr`); `[]byte` as `List Nat`
(each entry < 256); machine integers as `Nat`/`Int` with explicit
`% 2^32` where 32-bit wrapping matters (inside SHA-256).  Fallible Go
operations (panics, I/O) return `Option`/`Except`.  The concurrent
mining lifecycle of `mineBlock` is embedded as a small-step trace
semantics whose atomic steps are exactly the critical sections of the
Go source (each section delimited by one `mutex.Lock`/`Unlock` pair).
-/

namespace IPFSBlockchain

set_option maxRecDepth 40000

/-- Go strings, modelled as their character sequence. -/
abbrev GoStr := List Char

/-! ## SHA-256 (crypto/sha256), FIPS 180-4, over byte lists -/

/-- 2^32, the word modulus of SHA-256 arithmetic. -/
def w32 : Nat := 4294967296

/-- Right rotation of a 32-bit word (input assumed < 2^32). -/
def rotr32 (x n : Nat) : Nat := ((x >>> n) ||| (x <<< (32 - n))) % w32

/-- SHA-256 Ch(x,y,z); bitwise NOT is xor with the 32-bit mask. -/
def shaCh (x y z : Nat) : Nat := (x &&& y) ^^^ ((x ^^^ 4294967295) &&& z)

/-- SHA-256 Maj(x,y,z). -/
def shaMaj (x y z : Nat) : Nat := (x &&& y) ^^^ (x &&& z) ^^^ (y &&& z)

/-- SHA-256 Σ0. -/
def bigSigma0 (x : Nat) : Nat := rotr32 x 2 ^^^ rotr32 x 13 ^^^ rotr32 x 22

/-- SHA-256 Σ1. -/
def bigSigma1 (x : Nat) : Nat := rotr32 x 6 ^^^ rotr32 x 11 ^^^ rotr32 x 25

/-- SHA-256 σ0. -/
def smallSigma0 (x : Nat) : Nat := rotr32 x 7 ^^^ rotr32 x 18 ^^^ (x >>> 3)

/-- SHA-256 σ1. -/
def smallSigma1 (x : Nat) : Nat := rotr32 x 17 ^^^ rotr32 x 19 ^^^ (x >>> 10)

/-- The 64 SHA-256 round constants (FIPS 180-4, in decimal). -/
def shaK : List Nat :=
  [1116352408, 1899447441, 3049323471, 3921009573, 961987163, 1508970993,
   2453635748, 2870763221, 3624381080, 310598401, 607225278, 1426881987,
   1925078388, 2162078206, 2614888103, 3248222580, 3835390401, 4022224774,
   264347078, 604807628, 770255983, 1249150122, 1555081692, 1996064986,
   2554220882, 2821834349, 2952996808, 3210313671, 3336571891, 3584528711,
   113926993, 338241895, 666307205, 773529912, 1294757372, 1396182291,
   1695183700, 1986661051, 2177026350, 2456956037, 2730485921, 2820302411,
   3259730800, 3345764771, 3516065817, 3600352804, 4094571909, 275423344,
   430227734, 506948616, 659060556, 883997877, 958139571, 1322822218,
   1537002063, 1747873779, 1955562222, 2024104815, 2227730452, 2361852424,
   2428436474, 2756734187, 3204031479, 3329325298]

/-- The eight SHA-256 initial hash values (FIPS 180-4, in decimal). -/
def shaH0 : List Nat :=
  [1779033703, 3144134277, 1013904242, 2773480762,
   1359893119, 2600822924, 528734635, 1541459225]

/-- Group bytes into big-endian 32-bit words, four bytes per word. -/
def bytesToWords : List Nat → List Nat
  | b0 :: b1 :: b2 :: b3 :: rest =>
      (b0 * 16777216 + b1 * 65536 + b2 * 256 + b3) :: bytesToWords rest
  | _ => []

/-- Extend a 16-word message schedule by `n` further words. -/
def extendW (ws : List Nat) : Nat → List Nat
  | 0 => ws
  | n + 1 =>
      let l := ws.length
      let nw := (smallSigma1 (ws.getD (l - 2) 0) + ws.getD (l - 7) 0 +
                 smallSigma0 (ws.getD (l - 15) 0) + ws.getD (l - 16) 0) % w32
      extendW (ws ++ [nw]) n

/-- One SHA-256 round on the eight-word working state. -/
def shaRound (st : List Nat) (kt wt : Nat) : List Nat :=
  match st with
  | [a, b, c, d, e, f, g, h] =>
      let t1 := (h + bigSigma1 e + shaCh e f g + kt + wt) % w32
      let t2 := (bigSigma0 a + shaMaj a b c) % w32
      [(t1 + t2) % w32, a, b, c, (d + t1) % w32, e, f, g]
  | other => other

/-- Compress one 64-byte block into the running eight-word state. -/
def shaCompress (st : List Nat) (block : List Nat) : List Nat :=
  let ws := extendW (bytesToWords block) 48
  let fin := (shaK.zip ws).foldl (fun s p => shaRound s p.1 p.2) st
  List.zipWith (fun x y => (x + y) % w32) st fin

/-- `k` bytes of `n`, big-endian. -/
def bytesBE : Nat → Nat → List Nat
  | 0, _ => []
  | k + 1, n => bytesBE k (n / 256) ++ [n % 256]

/-- SHA-256 padding: append 0x80, zero bytes to 56 mod 64, then the
64-bit big-endian bit length. -/
def shaPad (msg : List Nat) : List Nat :=
  let len := msg.length
  let zeros := (119 - len % 64) % 64
  msg ++ [128] ++ List.replicate zeros 0 ++ bytesBE 8 (len * 8)

/-- Split a byte list into 64-byte chunks (fuel-driven). -/
def chunk64Aux : Nat → List Nat → List (List Nat)
  | 0, _ => []
  | _, [] => []
  | fuel + 1, l => l.take 64 :: chunk64Aux fuel (l.drop 64)

/-- Split a byte list into 64-byte chunks. -/
def chunk64 (l : List Nat) : List (List Nat) := chunk64Aux l.length l

/-- SHA-256 digest of a byte list, as eight 32-bit words. -/
def sha256Words (msg : List Nat) : List Nat :=
  (chunk64 (shaPad msg)).foldl shaCompress shaH0

/-- SHA-256 digest of a byte list, as 32 bytes. -/
def sha256Bytes (msg : List Nat) : List Nat :=
  (sha256Words msg).foldr (fun wd acc => bytesBE 4 wd ++ acc) []

/-- Lowercase hexadecimal digit, as in Go's `%x` verb. -/
def hexDigit (n : Nat) : Char := if n < 10 then Char.ofNat (48 + n) else Char.ofNat (87 + n)

/-- Two lowercase hex characters of one byte. -/
def byteToHex (b : Nat) : List Char := [hexDigit (b / 16), hexDigit (b % 16)]

/-- Lowercase hex encoding of a byte list, as in Go's `fmt.Sprintf("%x", ...)`. -/
def hexEncode (bs : List Nat) : GoStr := bs.foldr (fun b acc => byteToHex b ++ acc) []

/-- UTF-8 encoding of one character, as in Go's `[]byte(string)`. -/
def utf8EncodeChar (c : Char) : List Nat :=
  let n := c.toNat
  if n < 128 then [n]
  else if n < 2048 then [192 ||| (n >>> 6), 128 ||| (n &&& 63)]
  else if n < 65536 then
    [224 ||| (n >>> 12), 128 ||| ((n >>> 6) &&& 63), 128 ||| (n &&& 63)]
  else
    [240 ||| (n >>> 18), 128 ||| ((n >>> 12) &&& 63),
     128 ||| ((n >>> 6) &&& 63), 128 ||| (n &&& 63)]

/-- UTF-8 encoding of a Go string. -/
def utf8Encode (s : GoStr) : List Nat := s.foldr (fun c acc => utf8EncodeChar c ++ acc) []

/-! ## Decimal rendering (Go's `%d` verb on a non-negative int) -/

/-- The decimal digit character for `n < 10`. -/
def digitChar (n : Nat) : Char := Char.ofNat (48 + n)

/-- Fuel-driven digit expansion; the fuel strictly exceeds the argument,
so it never runs out (structural recursion keeps the definition reducible). -/
def natToDecAux : Nat → Nat → List Char
  | 0, _ => []
  | fuel + 1, n =>
      if n < 10 then [digitChar n]
      else natToDecAux fuel (n / 10) ++ [digitChar (n % 10)]

/-- Decimal rendering of a natural number, most significant digit first,
as Go's `fmt.Sprintf("%d", n)` produces for a non-negative int. -/
def natToDec (n : Nat) : List Char := natToDecAux (n + 1) n

/-- Value of a decimal digit string (left fold), inverse of `natToDec`. -/
def decVal (s : List Char) : Nat := s.foldl (fun a c => a * 10 + (c.toNat - 48)) 0

/-! ## Data model (miner.go: Transaction, Block) -/

/-- miner.go `Transaction`: ID is the submitting peer's address, Data the
computation's textual result. -/
structure Transaction where
  ID : GoStr
  Data : GoStr
deriving DecidableEq, Repr

/-- miner.go `Block`. Field order and meaning follow the Go struct;
`BlockNumber` and `Nonce` are the non-negative ints the program produces,
`Timestamp` is a Unix-seconds int64, `Difficulty` a Go int (may be negative
in principle, hence `Int`). -/
structure Block where
  PrevHash : GoStr
  Transactions : List Transaction
  Nonce : Nat
  Hash : GoStr
  PrevCID : GoStr
  BlockNumber : Nat
  Timestamp : Int
  Creator : GoStr
  Difficulty : Int
deriving DecidableEq, Repr

/-- Go `fmt` rendering of one `Transaction` under the `%s` verb:
`{ID Data}` (struct fields space-separated inside braces, written here
as \x7b and \x7d). -/
def fmtTransaction (t : Transaction) : GoStr :=
  Char.ofNat 123 :: (t.ID ++ ' ' :: t.Data) ++ [Char.ofNat 125]

/-- Space-join of rendered slice elements, as Go `fmt` does inside `[...]`. -/
def joinSpace : List GoStr → GoStr
  | [] => []
  | [x] => x
  | x :: xs => x ++ ' ' :: joinSpace xs

/-- Go `fmt` rendering of a `[]Transaction` under the `%s` verb:
`[elem elem ...]`. -/
def fmtTransactions (ts : List Transaction) : GoStr :=
  '[' :: joinSpace (ts.map fmtTransaction) ++ [']']

/-- miner.go `generateHash`, the formatted pre-image: Go builds
`fmt.Sprintf("%s%d%d%s", block.PrevHash, block.BlockNumber, nonce,
block.Transactions)` (the assignment `block.Nonce = nonce` has no effect on
the format arguments, which name `nonce` directly). -/
def blockData (b : Block) (nonce : Nat) : GoStr :=
  b.PrevHash ++ natToDec b.BlockNumber ++ natToDec nonce ++ fmtTransactions b.Transactions

/-- miner.go `generateHash`: lowercase-hex SHA-256 of the UTF-8 bytes of
the formatted pre-image. -/
def generateHash (b : Block) (nonce : Nat) : GoStr :=
  hexEncode (sha256Bytes (utf8Encode (blockData b nonce)))

/-! ## Proof of work (miner.go: validProof, proofOfWork) -/

/-- Go `strings.Repeat(s, count)`: panics (`none`) on a negative count,
otherwise concatenates `count` copies. -/
def stringRepeat (s : GoStr) (count : Int) : Option GoStr :=
  if count < 0 then none else some (List.flatten (List.replicate count.toNat s))

/-- miner.go `validProof`: the digest has the `difficulty`-fold `"0"` prefix.
`none` models the `strings.Repeat` panic on a negative difficulty. -/
def validProof (hash : GoStr) (difficulty : Int) : Option Bool :=
  (stringRepeat ['0'] difficulty).map (fun p => p.isPrefixOf hash)

/-- miner.go `proofOfWork` loop body, fuel-bounded: starting at `nonce`,
return the first candidate whose digest satisfies `validProof`; `none` when
the fuel runs out (the Go loop is unbounded) or `validProof` panics. -/
def proofOfWorkAux (block : Block) (difficulty : Int) : Nat → Nat → Option Nat
  | 0, _ => none
  | fuel + 1, nonce =>
      match validProof (generateHash block nonce) difficulty with
      | none => none
      | some true => some nonce
      | some false => proofOfWorkAux block difficulty fuel (nonce + 1)

/-- miner.go `proofOfWork`: iterate candidate nonces from 0. -/
def proofOfWork (block : Block) (difficulty : Int) (fuel : Nat) : Option Nat :=
  proofOfWorkAux block difficulty fuel 0

/-- Count of leading `'0'` characters of a digest string. -/
def leadingZeroCount : GoStr → Nat
  | [] => 0
  | c :: rest => if c = '0' then leadingZeroCount rest + 1 else 0

/-! ## Node state and the mining lifecycle (miner.go: globals, mineBlock,
addTransaction, uploadBlockToIPFS)

`mineBlock` runs its pool check and block assembly inside one
`mutex.Lock`/`Unlock` section, then spawns a goroutine that (outside any
lock) runs `proofOfWork` and fills `Nonce`/`Hash`, fires
`go uploadBlockToIPFS(block)` (an empty stub), and then performs two
FURTHER, SEPARATE locked sections: one updating the tip
(`previousBlockHash`, `previousBlockCID`, `currentBlock`) and one dropping
the first three pool entries (`transactionPool = transactionPool[3:]`).
The trace semantics below makes each of those locked sections one atomic
step, so that steps of concurrent `mineBlock`/`addTransaction` calls can
interleave exactly as the Go scheduler may interleave them. -/

/-- The sentinel `"-1"` the globals start from. -/
def strMinusOne : GoStr := ['-', '1']

/-- The Go zero value of `Block` (what `currentBlock` holds before any
block is mined). -/
def zeroBlock : Block :=
  { PrevHash := [], Transactions := [], Nonce := 0, Hash := [], PrevCID := [],
    BlockNumber := 0, Timestamp := 0, Creator := [], Difficulty := 0 }

/-- The package-level mutable state of miner.go. -/
structure NodeState where
  transactionPool : List Transaction
  previousBlockHash : GoStr
  previousBlockCID : GoStr
  currentBlock : Block
deriving DecidableEq, Repr

/-- Initial node state: empty pool, both tip pointers `"-1"`, zero block. -/
def initialNode : NodeState :=
  { transactionPool := [], previousBlockHash := strMinusOne,
    previousBlockCID := strMinusOne, currentBlock := zeroBlock }

/-- Progress of one spawned mining goroutine:
`searching` = proof-of-work loop still running; `mined` = nonce and hash
filled in, upload goroutine fired; `committed` = first locked section done
(tip updated); `cleared` = second locked section done (pool shrunk). -/
inductive AttemptPhase
  | searching
  | mined
  | committed
  | cleared
deriving DecidableEq, Repr

/-- One in-flight mining attempt: the goroutine-local `block` variable and
how far the goroutine has progressed. -/
structure Attempt where
  block : Block
  phase : AttemptPhase
deriving DecidableEq, Repr

/-- Whole-system state: the shared node globals plus all spawned attempts. -/
structure SysState where
  node : NodeState
  attempts : List Attempt
deriving DecidableEq, Repr

/-- Initial system state. -/
def initialSys : SysState := { node := initialNode, attempts := [] }

/-- The atomic steps of the embedded program, one per critical section or
lock-free phase boundary of miner.go. -/
inductive Step
  /-- `addTransaction t` (one locked section). -/
  | add (t : Transaction)
  /-- The synchronous body of `mineBlock miner difficulty` (one locked
  section): check `len(transactionPool) >= 3`, assemble the block from the
  live tip and `transactionPool[:3]`, spawn the search goroutine. `ts` is
  the `time.Now().Unix()` value observed. -/
  | mineBlockCall (miner : GoStr) (difficulty : Int) (ts : Int)
  /-- Attempt `k`'s `proofOfWork` returns within `fuel` candidates; the
  goroutine fills `Nonce` and `Hash` (no lock held). -/
  | powDone (k : Nat) (fuel : Nat)
  /-- Attempt `k`'s `go uploadBlockToIPFS(block)` goroutine runs; the Go
  function body is empty, so the step changes nothing. -/
  | upload (k : Nat)
  /-- Attempt `k`'s first locked section: set `previousBlockHash` to the
  block's hash, `previousBlockCID` to the block's `PrevCID` field, and
  `currentBlock` to the block. -/
  | commit (k : Nat)
  /-- Attempt `k`'s second locked section:
  `transactionPool = transactionPool[3:]` (a Go slice-bounds panic,
  modelled as failure, if the pool has shrunk below 3). -/
  | clearPool (k : Nat)
deriving DecidableEq, Repr

/-- Execute one atomic step; `none` when the step is not enabled (wrong
attempt phase — the goroutine simply is not at that point) or the program
panics (`transactionPool[3:]` out of bounds). -/
def execStep (s : SysState) : Step → Option SysState
  | .add t =>
      some { s with node := { s.node with
        transactionPool := s.node.transactionPool ++ [t] } }
  | .mineBlockCall miner difficulty ts =>
      if 3 ≤ s.node.transactionPool.length then
        let b : Block :=
          { PrevHash := s.node.previousBlockHash,
            PrevCID := s.node.previousBlockCID,
            BlockNumber := s.node.currentBlock.BlockNumber + 1,
            Transactions := s.node.transactionPool.take 3,
            Timestamp := ts, Creator := miner, Difficulty := difficulty,
            Nonce := 0, Hash := [] }
        some { s with attempts := s.attempts ++ [{ block := b, phase := .searching }] }
      else some s
  | .powDone k fuel =>
      match s.attempts.get? k with
      | some a =>
          if a.phase = .searching then
            match proofOfWork a.block a.block.Difficulty fuel with
            | some nonce =>
                let b := { a.block with Nonce := nonce, Hash := generateHash a.block nonce }
                some { s with attempts := s.attempts.set k { block := b, phase := .mined } }
            | none => none
          else none
      | none => none
  | .upload k =>
      match s.attempts.get? k with
      | some a => if a.phase = .searching then none else some s
      | none => none
  | .commit k =>
      match s.attempts.get? k with
      | some a =>
          if a.phase = .mined then
            some { node := { s.node with
                     previousBlockHash := a.block.Hash,
                     previousBlockCID := a.block.PrevCID,
                     currentBlock := a.block },
                   attempts := s.attempts.set k { a with phase := .committed } }
          else none
      | none => none
  | .clearPool k =>
      match s.attempts.get? k with
      | some a =>
          if a.phase = .committed then
            if 3 ≤ s.node.transactionPool.length then
              some { node := { s.node with
                       transactionPool := s.node.transactionPool.drop 3 },
                     attempts := s.attempts.set k { a with phase := .cleared } }
            else none
          else none
      | none => none

/-- Execute a list of steps in order; `none` as soon as one step fails. -/
def execTrace (s : SysState) : List Step → Option SysState
  | [] => some s
  | st :: rest =>
      match execStep s st with
      | some s1 => execTrace s1 rest
      | none => none

/-! ## The producer boundary (miner.go: handleReceive) -/

/-- Go `strings.Split` on a one-character separator. -/
def splitOn (sep : Char) : GoStr → List GoStr
  | [] => [[]]
  | c :: cs =>
      match splitOn sep cs with
      | [] => if c = sep then [[], []] else [[c]]
      | p :: ps => if c = sep then [] :: p :: ps else (c :: p) :: ps

/-- Position of the first `sep`, with the pieces before and after it. -/
def findSplit (sep : Char) : GoStr → Option (GoStr × GoStr)
  | [] => none
  | c :: cs =>
      if c = sep then some ([], cs)
      else (findSplit sep cs).map (fun p => (c :: p.1, p.2))

/-- Go `strings.SplitN(s, sep, 2)`: two pieces when the separator occurs,
otherwise the whole string as the single piece. -/
def splitN2 (sep : Char) (s : GoStr) : List GoStr :=
  match findSplit sep s with
  | none => [s]
  | some (a, b) => [a, b]

/-- Whitespace per Go `strings.TrimSpace` (the ASCII cases, which are the
only ones arising here). -/
def isSpaceChar (c : Char) : Bool :=
  c = ' ' || c = '\t' || c = '\n' || c = '\r'

/-- Go `strings.TrimSpace` (ASCII whitespace). -/
def trimSpace (s : GoStr) : GoStr :=
  ((s.dropWhile isSpaceChar).reverse.dropWhile isSpaceChar).reverse

/-- `strings.Split(r.RemoteAddr, ":")[0]`, the client IP extraction of
handleReceive (`Split` always returns at least one piece, so the index is
safe). -/
def clientIPOf (remoteAddr : GoStr) : GoStr := (splitOn ':' remoteAddr).headD []

/-- Outcomes of the I/O calls handleReceive makes, supplied as an oracle:
each is the collaborator's success value or its error text. -/
structure IOOracle where
  getwd : Except GoStr GoStr
  downloadPython : Except GoStr Unit
  downloadText : Except GoStr Unit
  execPython : Except GoStr GoStr
  removePython : Except GoStr Unit
  removeText : Except GoStr Unit

/-- What a handleReceive call does, as observable at the core boundary:
either an `http.Error` reply (status code and message, no core action), or
the success path, which calls `addTransaction tx` and then
`go mineBlock miner difficulty`. -/
inductive HROutcome
  | httpError (status : Nat) (msg : GoStr)
  | ok (tx : Transaction) (miner : GoStr) (difficulty : Int)
deriving DecidableEq, Repr

/-- miner.go `handleReceive`, with request method, remote address and body
as values and the I/O collaborators as an oracle. Every check and its
order follows the Go source; the downloaded-file names (hash plus possibly
corrected extension) exist only on the I/O side and are absorbed into the
oracle. -/
def handleReceive (method remoteAddr body : GoStr) (io : IOOracle) : HROutcome :=
  let clientIP := clientIPOf remoteAddr
  if method ≠ ['P', 'O', 'S', 'T'] then .httpError 405 [] else
  let hashes := splitOn ',' body
  if hashes.length ≠ 2 then .httpError 400 [] else
  let pythonParts := splitN2 '|' (hashes.getD 0 [])
  let txtParts := splitN2 '|' (hashes.getD 1 [])
  if pythonParts.length ≠ 2 ∨ txtParts.length ≠ 2 then .httpError 400 [] else
  match io.getwd with
  | .error e => .httpError 500 e
  | .ok _ =>
  match io.downloadPython with
  | .error e => .httpError 500 e
  | .ok _ =>
  match io.downloadText with
  | .error e => .httpError 500 e
  | .ok _ =>
  match io.execPython with
  | .error e => .httpError 500 e
  | .ok result =>
  match io.removePython with
  | .error e => .httpError 500 e
  | .ok _ =>
  match io.removeText with
  | .error e => .httpError 500 e
  | .ok _ => .ok { ID := clientIP, Data := result } clientIP 4

/-! ## Concrete sample data used to evaluate the embedding -/

/-- A one-character-ID, one-character-payload transaction. -/
def mkTx (c d : Char) : Transaction := { ID := [c], Data := [d] }

/-- Six distinct transactions, added in this order in the scenario traces. -/
def sampleTxs : List Transaction :=
  [mkTx 'a' 'b', mkTx 'c' 'd', mkTx 'e' 'f', mkTx 'g' 'h', mkTx 'i' 'j', mkTx 'k' 'l']

/-- The first three of `sampleTxs`, the batch a first `tryTakeBatch` yields. -/
def sampleBatch : List Transaction := sampleTxs.take 3

/-- Interleaving in which two `mineBlock` calls both pass the pool check
before either spawned goroutine clears the pool: six adds, two assemblies,
both searches finish, then both tip updates and both pool drops. -/
def overlapTrace : List Step :=
  (sampleTxs.map Step.add) ++
  [.mineBlockCall ['m'] 0 0, .mineBlockCall ['m'] 0 0, .powDone 0 9, .powDone 1 9,
   .commit 0, .clearPool 0, .commit 1, .clearPool 1]

/-- One full serialized mining attempt in which the upload goroutine never
runs: three adds, one assembly, search, tip update — and no `upload` step. -/
def commitWithoutUploadTrace : List Step :=
  [.add (mkTx 'a' 'b'), .add (mkTx 'c' 'd'), .add (mkTx 'e' 'f'),
   .mineBlockCall ['m'] 0 0, .powDone 0 9, .commit 0]

/-- One full serialized mining attempt from genesis, for inspecting the tip
pointers the commit leaves behind. -/
def singleMineTrace : List Step :=
  [.add (mkTx 'a' 'b'), .add (mkTx 'c' 'd'), .add (mkTx 'e' 'f'),
   .mineBlockCall ['m'] 0 5, .powDone 0 9, .commit 0]

/-- Attempts 0 and 1 both snapshot the genesis tip (both will claim block
number 1); attempt 0 commits and clears, attempt 2 then builds and commits
block number 2 — and stale attempt 1 has not committed yet. -/
def staleCommitPrefixTrace : List Step :=
  (sampleTxs.map Step.add) ++
  [.mineBlockCall ['m'] 0 0, .mineBlockCall ['m'] 0 0, .powDone 0 9, .powDone 1 9,
   .commit 0, .clearPool 0, .mineBlockCall ['m'] 0 0, .powDone 2 9, .commit 2]

/-- A node state whose pool holds exactly three transactions. -/
def threeTxSys : SysState :=
  { node := { initialNode with transactionPool := sampleBatch }, attempts := [] }

/-- A completed-search attempt with an arbitrary mined block, for exercising
the commit step in isolation. -/
def minedAttempt : Attempt :=
  { block := { zeroBlock with BlockNumber := 7, Hash := ['h'], PrevCID := ['c'] },
    phase := .mined }

/-- A system holding one completed-search attempt. -/
def minedAttemptSys : SysState := { node := initialNode, attempts := [minedAttempt] }

/-- An oracle in which every collaborator call succeeds. -/
def okOracle : IOOracle :=
  { getwd := .ok ['/'], downloadPython := .ok (), downloadText := .ok (),
    execPython := .ok ['r'], removePython := .ok (), removeText := .ok () }

/-- The request method string `"POST"`. -/
def strPOST : GoStr := ['P', 'O', 'S', 'T']

/-- A well-formed request body: two comma-separated hash entries, each
carrying a `|`-separated extension. -/
def goodBody : GoStr := ['h', '|', '.', 'p', 'y', ',', 'k', '|', '.', 't', 'x', 't']

/-- A remote address whose IP part is `1.2.3.4`. -/
def sampleAddr : GoStr := ['1', '.', '2', '.', '3', '.', '4', ':', '9']

/-- A template block as `mineBlock` assembles it from genesis over
`sampleBatch`. -/
def cb1 : Block :=
  { PrevHash := strMinusOne, PrevCID := strMinusOne, BlockNumber := 1,
    Transactions := sampleBatch, Timestamp := 0, Creator := ['m'], Difficulty := 4,
    Nonce := 0, Hash := [] }

/-- `cb1` with only the `Creator` changed. -/
def cb2 : Block := { cb1 with Creator := ['w'] }

/-- `cb1` with only the `PrevCID` changed. -/
def cb3 : Block := { cb1 with PrevCID := ['Q'] }

/-- `cb1` with only the `Timestamp` changed. -/
def cb4 : Block := { cb1 with Timestamp := 99 }

/-- `cb1` with only the `Difficulty` changed. -/
def cb5 : Block := { cb1 with Difficulty := 9 }

/-! ## Helper lemmas: decimal rendering -/

/-- The code of a decimal digit character. -/
theorem digitChar_toNat : ∀ m, m < 10 → (digitChar m).toNat = 48 + m := by decide

/-- `decVal` peels the last digit off. -/
theorem decVal_append_digit (xs : List Char) (c : Char) :
    decVal (xs ++ [c]) = decVal xs * 10 + (c.toNat - 48) := by
  simp [decVal, List.foldl_append]

/-- With enough fuel, `decVal` inverts the digit expansion. -/
theorem decVal_natToDecAux : ∀ (fuel n : Nat), n < fuel → decVal (natToDecAux fuel n) = n := by
  intro fuel
  induction fuel with
  | zero => intro n h; omega
  | succ f ih =>
      intro n h
      rw [natToDecAux]
      by_cases h10 : n < 10
      · rw [if_pos h10]
        have hd := digitChar_toNat n h10
        simp [decVal]
        omega
      · rw [if_neg h10]
        rw [decVal_append_digit, ih (n / 10) (by omega)]
        have hd := digitChar_toNat (n % 10) (by omega)
        omega

/-- Decimal rendering is injective. -/
theorem natToDec_injective {m n : Nat} (h : natToDec m = natToDec n) : m = n := by
  have h1 := decVal_natToDecAux (m + 1) m (by omega)
  have h2 := decVal_natToDecAux (n + 1) n (by omega)
  unfold natToDec at h
  rw [h] at h1
  omega

/-- The digest pre-image separates nonces: for a fixed block, distinct
nonces give distinct formatted strings. -/
theorem blockData_nonce_injective (b : Block) {n n' : Nat}
    (h : blockData b n = blockData b n') : n = n' := by
  unfold blockData at h
  have h1 := List.append_cancel_right h
  have h2 := List.append_cancel_left h1
  exact natToDec_injective h2

/-! ## Helper lemmas: difficulty prefix -/

/-- Flattening `n` copies of a one-character string is an `n`-character
string. -/
theorem flatten_replicate_singleton (c : Char) :
    ∀ n, List.flatten (List.replicate n [c]) = List.replicate n c := by
  intro n
  induction n with
  | zero => rfl
  | succ k ih => simp [List.replicate_succ, ih]

/-- Having the `d`-fold `'0'` prefix is having at least `d` leading zeros. -/
theorem replicate_zero_prefix_iff :
    ∀ (d : Nat) (s : GoStr), List.replicate d '0' <+: s ↔ d ≤ leadingZeroCount s := by
  intro d
  induction d with
  | zero => intro s; simp
  | succ k ih =>
      intro s
      cases s with
      | nil =>
          simp [List.replicate_succ, leadingZeroCount]
      | cons c t =>
          rw [List.replicate_succ, List.cons_prefix_cons]
          by_cases hc : c = '0'
          · simp [leadingZeroCount, hc, ih t]
          · have hc' : ¬ ('0' = c) := fun h => hc h.symm
            simp [leadingZeroCount, hc, hc']

/-- What `validProof` computes on a non-negative difficulty. -/
theorem validProof_eq_of_nonneg (hsh : GoStr) (d : Int) (hd : 0 ≤ d) :
    validProof hsh d = some ((List.replicate d.toNat '0').isPrefixOf hsh) := by
  unfold validProof stringRepeat
  rw [if_neg (by omega)]
  simp [flatten_replicate_singleton]

/-- `validProof` panics on a negative difficulty (`strings.Repeat`). -/
theorem validProof_none_of_neg (hsh : GoStr) (d : Int) (hd : d < 0) :
    validProof hsh d = none := by
  unfold validProof stringRepeat
  rw [if_pos hd]
  rfl

/-- A `validProof` that returned at all was called with a non-negative
difficulty. -/
theorem validProof_some_nonneg {hsh : GoStr} {d : Int} {x : Bool}
    (h : validProof hsh d = some x) : 0 ≤ d := by
  by_contra hneg
  rw [validProof_none_of_neg hsh d (by omega)] at h
  cases h

/-- `validProof` accepts exactly digests with at least `d` leading zeros. -/
theorem validProof_true_iff {hsh : GoStr} {d : Int} (hd : 0 ≤ d) :
    validProof hsh d = some true ↔ d.toNat ≤ leadingZeroCount hsh := by
  rw [validProof_eq_of_nonneg hsh d hd, Option.some.injEq,
    List.isPrefixOf_iff_prefix, replicate_zero_prefix_iff]

/-- `validProof` rejects exactly digests with fewer than `d` leading zeros. -/
theorem validProof_false_iff {hsh : GoStr} {d : Int} (hd : 0 ≤ d) :
    validProof hsh d = some false ↔ leadingZeroCount hsh < d.toNat := by
  rw [validProof_eq_of_nonneg hsh d hd, Option.some.injEq]
  constructor
  · intro h
    by_contra hlt
    have hle : d.toNat ≤ leadingZeroCount hsh := by omega
    rw [← replicate_zero_prefix_iff, ← List.isPrefixOf_iff_prefix] at hle
    rw [hle] at h
    cases h
  · intro h
    have hne : ¬ ((List.replicate d.toNat '0').isPrefixOf hsh = true) := by
      rw [List.isPrefixOf_iff_prefix, replicate_zero_prefix_iff]
      omega
    exact Bool.eq_false_iff.mpr hne

/-! ## Helper lemmas: the proof-of-work loop -/

/-- Soundness of the fuel-bounded search: a returned nonce is at least the
starting candidate, satisfies the predicate, and every candidate between
the start and it fails the predicate. -/
theorem proofOfWorkAux_sound (b : Block) (d : Int) :
    ∀ (fuel start n : Nat), proofOfWorkAux b d fuel start = some n →
      start ≤ n ∧ validProof (generateHash b n) d = some true ∧
      ∀ m, start ≤ m → m < n → validProof (generateHash b m) d = some false := by
  intro fuel
  induction fuel with
  | zero => intro start n h; cases h
  | succ f ih =>
      intro start n h
      rw [proofOfWorkAux] at h
      cases hv : validProof (generateHash b start) d with
      | none => rw [hv] at h; cases h
      | some bv =>
          rw [hv] at h
          cases bv with
          | true =>
              have hn : start = n := by
                simpa using h
              subst hn
              exact ⟨Nat.le_refl _, hv, fun m h1 h2 => absurd h2 (by omega)⟩
          | false =>
              obtain ⟨h1, h2, h3⟩ := ih (start + 1) n (by simpa using h)
              refine ⟨by omega, h2, ?_⟩
              intro m hm1 hm2
              by_cases hm : m = start
              · subst hm; exact hv
              · exact h3 m (by omega) hm2

/-! ## Helper lemmas: the producer boundary -/

/-- Every success outcome of `handleReceive` carries the client IP as the
transaction ID and the miner identity, and difficulty 4. -/
theorem handleReceive_ok_inv :
    ∀ (method addr body : GoStr) (io : IOOracle) (tx : Transaction) (m : GoStr) (d : Int),
      handleReceive method addr body io = .ok tx m d →
      tx.ID = clientIPOf addr ∧ m = clientIPOf addr ∧ d = 4 := by
  intro method addr body io tx m d h
  dsimp only [handleReceive] at h
  repeat' split at h
  all_goals cases h
  all_goals exact ⟨rfl, rfl, rfl⟩

/-! ## Claim theorems -/

/-- C1: refuted on the code — the check-and-take is NOT atomic. In the
interleaving `overlapTrace`, two `mineBlock` calls both pass the
`len(transactionPool) >= 3` check (one locked section) before either
spawned goroutine reaches its separate pool-clearing locked section: both
mined blocks carry the same first three transactions, both drops then
remove three entries each, the pool ends empty, the concatenation of the
two batches is not a prefix of the added sequence, and the fourth added
transaction is mined into no block at all. -/
theorem concurrent_mineBlock_drains_overlapping_batches :
    ((execTrace initialSys overlapTrace).map fun s =>
        (s.attempts.map fun a => a.block.Transactions, s.node.transactionPool))
      = some ([sampleBatch, sampleBatch], [])
    ∧ ¬ (sampleBatch ++ sampleBatch) <+: sampleTxs
    ∧ mkTx 'g' 'h' ∈ sampleTxs
    ∧ mkTx 'g' 'h' ∉ sampleBatch ++ sampleBatch :=
  ⟨by decide, by decide, by decide, by decide⟩

/-- C2: refuted on the code — the tip advances without publication. In
`commitWithoutUploadTrace` the mined block's commit updates the tip
although the trace contains no `upload` step at all: the
`go uploadBlockToIPFS(block)` goroutine (whose Go body is empty and can
neither store the block nor report failure) has not even run when the tip
is already advanced to the new block. -/
theorem tip_advances_without_publication :
    (commitWithoutUploadTrace.all fun st =>
        match st with | .upload _ => false | _ => true) = true
    ∧ ((execTrace initialSys commitWithoutUploadTrace).map fun s =>
         (decide (s.node.previousBlockHash ≠ strMinusOne), s.node.currentBlock.BlockNumber))
       = some (true, 1) :=
  ⟨by decide, by decide⟩

/-- C3: refuted on the code — `generateHash` does NOT incorporate every
block field except `hash`. Blocks differing only in `Creator`, or only in
`PrevCID`, `Timestamp` or `Difficulty`, have identical digests, because the
formatted pre-image only contains `PrevHash`, `BlockNumber`, the nonce and
`Transactions`. -/
theorem generateHash_ignores_non_hashed_fields :
    (cb1.Creator ≠ cb2.Creator ∧ generateHash cb1 0 = generateHash cb2 0)
    ∧ (cb1.PrevCID ≠ cb3.PrevCID ∧ generateHash cb1 0 = generateHash cb3 0)
    ∧ (cb1.Timestamp ≠ cb4.Timestamp ∧ generateHash cb1 0 = generateHash cb4 0)
    ∧ (cb1.Difficulty ≠ cb5.Difficulty ∧ generateHash cb1 0 = generateHash cb5 0) :=
  ⟨⟨by decide, rfl⟩, ⟨by decide, rfl⟩, ⟨by decide, rfl⟩, ⟨by decide, rfl⟩⟩

/-- C3 (amended): the digest is deterministic and is a function of exactly
`PrevHash`, `BlockNumber`, the nonce and `Transactions`; for a fixed block,
distinct nonces always give distinct digest pre-images, and the digest
itself observably changes with the nonce on the assembled sample block. -/
theorem generateHash_depends_only_on_hashed_fields :
    (∀ (b b' : Block) (n : Nat), b.PrevHash = b'.PrevHash → b.BlockNumber = b'.BlockNumber →
       b.Transactions = b'.Transactions → generateHash b n = generateHash b' n)
    ∧ (∀ (b : Block) (n n' : Nat), blockData b n = blockData b n' → n = n')
    ∧ generateHash cb1 0 ≠ generateHash cb1 1 := by
  refine ⟨?_, ?_, by decide⟩
  · intro b b' n h1 h2 h3
    unfold generateHash blockData
    rw [h1, h2, h3]
  · intro b n n' h
    exact blockData_nonce_injective b h

/-- C3 (amended) witness: the field-dependence part applied to the two
sample blocks that differ only in `Creator`, and the pre-image separation
part applied at nonce 5. -/
theorem generateHash_depends_only_on_hashed_fields_witness :
    generateHash cb1 0 = generateHash cb2 0 ∧ (5 : Nat) = 5 :=
  ⟨generateHash_depends_only_on_hashed_fields.1 cb1 cb2 0 rfl rfl rfl,
   generateHash_depends_only_on_hashed_fields.2.1 cb1 5 5 rfl⟩

/-- C4: refuted on the code — the commit never stores the new block's own
storage address. After mining one block from genesis, the tip storage
address (`previousBlockCID`) is still the genesis sentinel `"-1"`: the
commit assigns `block.PrevCID` (the predecessor's address) to it, while
the tip hash and block number do advance to the new block's. -/
theorem commit_keeps_predecessor_storage_address :
    ((execTrace initialSys singleMineTrace).map fun s =>
        (s.node.previousBlockCID, s.node.currentBlock.PrevCID,
         s.node.currentBlock.BlockNumber,
         decide (s.node.previousBlockHash = s.node.currentBlock.Hash)))
      = some (strMinusOne, strMinusOne, 1, true) := by decide

/-- C5: refuted on the code — duplicate block numbers commit silently and
the tip can even decrease. In `staleCommitPrefixTrace` attempts 0 and 1
snapshot the same genesis tip and both claim block number 1; after attempt
0 commits and attempt 2 commits block number 2, stale attempt 1's commit
still succeeds, moving the tip block number back from 2 to 1 — rejected
nowhere. -/
theorem stale_commit_accepted_and_tip_decreases :
    ((execTrace initialSys staleCommitPrefixTrace).map fun s =>
        s.node.currentBlock.BlockNumber) = some 2
    ∧ ((execTrace initialSys (staleCommitPrefixTrace ++ [.commit 1])).map fun s =>
         (s.node.currentBlock.BlockNumber,
          s.attempts.map fun a => (a.block.BlockNumber, a.phase)))
       = some (1, [(1, .cleared), (1, .committed), (2, .committed)]) :=
  ⟨by decide, by decide⟩

/-- C5 (amended): the commit of a completed attempt is unconditional — it
never compares the attempt's snapshot against the live tip, always
succeeds, and installs the attempt's block wholesale (so two attempts
sharing a snapshot both commit the same block number, the later silently
overwriting the earlier); each assembly does take the number
snapshot + 1. -/
theorem advance_is_unconditional :
    (∀ (s : SysState) (k : Nat) (a : Attempt),
       s.attempts[k]? = some a → a.phase = .mined →
       execStep s (.commit k) =
         some { node := { s.node with
                  previousBlockHash := a.block.Hash,
                  previousBlockCID := a.block.PrevCID,
                  currentBlock := a.block },
                attempts := s.attempts.set k { a with phase := .committed } })
    ∧ (∀ (s : SysState) (m : GoStr) (d ts : Int), 3 ≤ s.node.transactionPool.length →
       ((execStep s (.mineBlockCall m d ts)).map fun s' =>
           s'.attempts.map fun a => a.block.BlockNumber)
         = some ((s.attempts.map fun a => a.block.BlockNumber)
                  ++ [s.node.currentBlock.BlockNumber + 1])) := by
  constructor
  · intro s k a hk hp
    simp [execStep, hk, hp]
  · intro s m d ts h
    simp [execStep, h]

/-- C5 (amended) witness: the unconditional commit applied to a concrete
system holding one completed attempt, and the snapshot + 1 numbering on a
concrete three-transaction pool. -/
theorem advance_is_unconditional_witness :
    execStep minedAttemptSys (.commit 0) =
      some { node := { minedAttemptSys.node with
               previousBlockHash := minedAttempt.block.Hash,
               previousBlockCID := minedAttempt.block.PrevCID,
               currentBlock := minedAttempt.block },
             attempts := minedAttemptSys.attempts.set 0
                           { minedAttempt with phase := .committed } }
    ∧ ((execStep threeTxSys (.mineBlockCall ['m'] 4 0)).map fun s' =>
         s'.attempts.map fun a => a.block.BlockNumber)
       = some ((threeTxSys.attempts.map fun a => a.block.BlockNumber)
                ++ [threeTxSys.node.currentBlock.BlockNumber + 1]) :=
  ⟨advance_is_unconditional.1 minedAttemptSys 0 minedAttempt (by decide) rfl,
   advance_is_unconditional.2 threeTxSys ['m'] 4 0 (by decide)⟩

/-- C6: confirmed. Whenever the nonce search (which iterates candidates
from 0; the Go loop is unbounded, embedded here with fuel) returns a
nonce, that nonce's digest has at least `d` leading `'0'` hex characters
and every smaller nonce's digest has fewer — so the returned nonce is the
least valid one; and for difficulty 0 the very first candidate, nonce 0,
is returned at once. -/
theorem proofOfWork_returns_least_valid_nonce :
    (∀ (b : Block) (d : Int) (fuel n : Nat), proofOfWork b d fuel = some n →
       d.toNat ≤ leadingZeroCount (generateHash b n) ∧
       ∀ m, m < n → leadingZeroCount (generateHash b m) < d.toNat)
    ∧ (∀ (b : Block) (fuel : Nat), 0 < fuel → proofOfWork b 0 fuel = some 0) := by
  constructor
  · intro b d fuel n h
    obtain ⟨-, h2, h3⟩ := proofOfWorkAux_sound b d fuel 0 n h
    have hd : 0 ≤ d := validProof_some_nonneg h2
    exact ⟨(validProof_true_iff hd).mp h2,
           fun m hm => (validProof_false_iff hd).mp (h3 m (Nat.zero_le m) hm)⟩
  · intro b fuel hf
    cases fuel with
    | zero => omega
    | succ f =>
        show proofOfWorkAux b 0 (f + 1) 0 = some 0
        rw [proofOfWorkAux]
        have hv : validProof (generateHash b 0) 0 = some true := by
          rw [validProof_eq_of_nonneg _ _ (by omega)]
          simp
        rw [hv]

/-- C6 witness: on the sample template with difficulty 0 and fuel 1 the
search returns nonce 0, whose digest trivially meets the bound. -/
theorem proofOfWork_returns_least_valid_nonce_witness :
    proofOfWork cb1 0 1 = some 0 ∧
    ((0 : Int).toNat ≤ leadingZeroCount (generateHash cb1 0) ∧
     ∀ m, m < 0 → leadingZeroCount (generateHash cb1 m) < (0 : Int).toNat) :=
  ⟨proofOfWork_returns_least_valid_nonce.2 cb1 1 (by omega),
   proofOfWork_returns_least_valid_nonce.1 cb1 0 1 0
     (proofOfWork_returns_least_valid_nonce.2 cb1 1 (by omega))⟩

/-- C7: confirmed. The check-and-assemble section of `mineBlock` reports no
batch available exactly when the pool holds fewer than 3 transactions, in
which case the state is returned unchanged (no side effects); when it
succeeds, the assembled block's transaction list is exactly the first 3
pool entries — a prefix of the pool of length exactly 3 — and pool and
chain state are untouched at that point. -/
theorem tryTakeBatch_exactly_batchSize (s : SysState) (m : GoStr) (d ts : Int) :
    (s.node.transactionPool.length < 3 →
       execStep s (.mineBlockCall m d ts) = some s)
    ∧ (3 ≤ s.node.transactionPool.length →
       execStep s (.mineBlockCall m d ts) =
         some { s with attempts := s.attempts ++
                  [{ block := { PrevHash := s.node.previousBlockHash,
                                PrevCID := s.node.previousBlockCID,
                                BlockNumber := s.node.currentBlock.BlockNumber + 1,
                                Transactions := s.node.transactionPool.take 3,
                                Timestamp := ts, Creator := m, Difficulty := d,
                                Nonce := 0, Hash := [] },
                     phase := .searching }] }
       ∧ (s.node.transactionPool.take 3).length = 3
       ∧ s.node.transactionPool.take 3 <+: s.node.transactionPool) := by
  constructor
  · intro h
    simp only [execStep]
    rw [if_neg (by omega)]
  · intro h
    refine ⟨?_, ?_, List.take_prefix 3 _⟩
    · simp only [execStep]
      rw [if_pos h]
    · rw [List.length_take]
      omega

/-- C7 witness: on the empty pool the call is a no-op; on a pool of exactly
three, the assembled block holds those three in order. -/
theorem tryTakeBatch_exactly_batchSize_witness :
    execStep initialSys (.mineBlockCall ['m'] 4 0) = some initialSys
    ∧ (execStep threeTxSys (.mineBlockCall ['m'] 4 0) =
         some { threeTxSys with attempts := threeTxSys.attempts ++
                  [{ block := { PrevHash := threeTxSys.node.previousBlockHash,
                                PrevCID := threeTxSys.node.previousBlockCID,
                                BlockNumber := threeTxSys.node.currentBlock.BlockNumber + 1,
                                Transactions := threeTxSys.node.transactionPool.take 3,
                                Timestamp := 0, Creator := ['m'], Difficulty := 4,
                                Nonce := 0, Hash := [] },
                     phase := .searching }] }
       ∧ (threeTxSys.node.transactionPool.take 3).length = 3
       ∧ threeTxSys.node.transactionPool.take 3 <+: threeTxSys.node.transactionPool) :=
  ⟨(tryTakeBatch_exactly_batchSize initialSys ['m'] 4 0).1 (by decide),
   (tryTakeBatch_exactly_batchSize threeTxSys ['m'] 4 0).2 (by decide)⟩

/-- C8: confirmed. A request whose body splits into a number of
comma-separated entries other than two, or one of whose entries carries no
`|`-separated file-type suffix, is answered with an `http.Error` — an
outcome that performs no `addTransaction` and triggers no `mineBlock`, so
no core state is touched. -/
theorem malformed_request_rejected_before_core :
    ∀ (method addr body : GoStr) (io : IOOracle),
      ((splitOn ',' body).length ≠ 2 ∨
       (splitN2 '|' ((splitOn ',' body).getD 0 [])).length ≠ 2 ∨
       (splitN2 '|' ((splitOn ',' body).getD 1 [])).length ≠ 2) →
      ∃ st msg, handleReceive method addr body io = .httpError st msg := by
  intro method addr body io h
  dsimp only [handleReceive]
  split
  · exact ⟨405, [], rfl⟩
  · split
    · exact ⟨400, [], rfl⟩
    · rename_i hlen
      split
      · exact ⟨400, [], rfl⟩
      · rename_i hparts
        rcases h with h | h | h
        · exact absurd h hlen
        · exact absurd (Or.inl h) hparts
        · exact absurd (Or.inr h) hparts

/-- C8 witness: a body with no comma at all is rejected. -/
theorem malformed_request_rejected_before_core_witness :
    ∃ st msg, handleReceive strPOST sampleAddr ['a', 'b'] okOracle = .httpError st msg :=
  malformed_request_rejected_before_core strPOST sampleAddr ['a', 'b'] okOracle (by decide)

/-- C9: confirmed. Every success outcome of `handleReceive` triggers mining
with difficulty 4 and with the requesting client's IP (the part of
`RemoteAddr` before the first `':'`) as the miner identity, and the block
then assembled for that trigger carries exactly that IP as its `Creator`
and 4 as its `Difficulty`. -/
theorem receive_mines_with_clientIP_and_difficulty4 :
    ∀ (method addr body : GoStr) (io : IOOracle) (tx : Transaction) (m : GoStr) (d : Int),
      handleReceive method addr body io = .ok tx m d →
      m = clientIPOf addr ∧ d = 4 ∧ tx.ID = clientIPOf addr ∧
      ∀ (s : SysState) (ts : Int), 3 ≤ s.node.transactionPool.length →
        execStep s (.mineBlockCall m d ts) =
          some { s with attempts := s.attempts ++
                   [{ block := { PrevHash := s.node.previousBlockHash,
                                 PrevCID := s.node.previousBlockCID,
                                 BlockNumber := s.node.currentBlock.BlockNumber + 1,
                                 Transactions := s.node.transactionPool.take 3,
                                 Timestamp := ts, Creator := clientIPOf addr,
                                 Difficulty := 4, Nonce := 0, Hash := [] },
                      phase := .searching }] } := by
  intro method addr body io tx m d h
  obtain ⟨hid, hm, hd⟩ := handleReceive_ok_inv method addr body io tx m d h
  subst hm
  subst hd
  refine ⟨rfl, rfl, hid, ?_⟩
  intro s ts hlen
  simp only [execStep]
  rw [if_pos hlen]

/-- C9 witness: a complete successful request from `1.2.3.4:9` yields the
trigger `(clientIP, 4)`, and the block assembled over a three-transaction
pool carries Creator `1.2.3.4` and difficulty 4. -/
theorem receive_mines_with_clientIP_and_difficulty4_witness :
    execStep threeTxSys (.mineBlockCall (clientIPOf sampleAddr) 4 0) =
      some { threeTxSys with attempts := threeTxSys.attempts ++
               [{ block := { PrevHash := threeTxSys.node.previousBlockHash,
                             PrevCID := threeTxSys.node.previousBlockCID,
                             BlockNumber := threeTxSys.node.currentBlock.BlockNumber + 1,
                             Transactions := threeTxSys.node.transactionPool.take 3,
                             Timestamp := 0, Creator := clientIPOf sampleAddr,
                             Difficulty := 4, Nonce := 0, Hash := [] },
                  phase := .searching }] } :=
  (receive_mines_with_clientIP_and_difficulty4 strPOST sampleAddr goodBody okOracle
      { ID := clientIPOf sampleAddr, Data := ['r'] } (clientIPOf sampleAddr) 4
      (by decide)).2.2.2 threeTxSys 0 (by decide)

/-- C10: confirmed. `validProof` returns a Boolean for every hash string
when the difficulty is non-negative (for difficulty 0 the required prefix
is empty, so it returns true on every hash), and is undefined — the
`strings.Repeat` panic — for every negative difficulty; and the program's
one call chain into it (`handleReceive` → `mineBlock` → `proofOfWork`)
always passes difficulty 4 ≥ 0. -/
theorem validProof_total_iff_difficulty_nonneg :
    ∀ (hsh : GoStr) (d : Int),
      (0 ≤ d → validProof hsh d = some ((List.replicate d.toNat '0').isPrefixOf hsh))
      ∧ validProof hsh 0 = some true
      ∧ (d < 0 → validProof hsh d = none)
      ∧ (∀ (method addr body : GoStr) (io : IOOracle) (tx : Transaction)
           (m : GoStr) (d' : Int),
           handleReceive method addr body io = .ok tx m d' → 0 ≤ d') := by
  intro hsh d
  refine ⟨validProof_eq_of_nonneg hsh d, ?_, validProof_none_of_neg hsh d, ?_⟩
  · rw [validProof_eq_of_nonneg hsh 0 (by omega)]
    simp
  · intro method addr body io tx m d' h
    obtain ⟨-, -, hd⟩ := handleReceive_ok_inv method addr body io tx m d' h
    omega

/-- C10 witness: difficulty 3 yields a Boolean, difficulty 0 accepts the
sample digest, difficulty -1 panics, and the program's own trigger carries
difficulty 4 ≥ 0. -/
theorem validProof_total_iff_difficulty_nonneg_witness :
    validProof ['a'] 3 = some ((List.replicate (3 : Int).toNat '0').isPrefixOf ['a'])
    ∧ validProof ['a'] 0 = some true
    ∧ validProof ['a'] (-1) = none
    ∧ (0 : Int) ≤ 4 :=
  ⟨(validProof_total_iff_difficulty_nonneg ['a'] 3).1 (by omega),
   (validProof_total_iff_difficulty_nonneg ['a'] 0).2.1,
   (validProof_total_iff_difficulty_nonneg ['a'] (-1)).2.2.1 (by omega),
   (validProof_total_iff_difficulty_nonneg ['a'] 4).2.2.2 strPOST sampleAddr goodBody
     okOracle { ID := clientIPOf sampleAddr, Data := ['r'] } (clientIPOf sampleAddr) 4
     (by decide)⟩

end IPFSBlockchain
